import Mathlib

/-!
Shallow embedding of the translation cache engine of `src/translation-cache.ts`
(class `TranslationCache`): key derivation, lazy expiration, size-bounded
eviction, hit/miss metrics, and debounced persistence.

Modelling conventions:
- The JS `Map<string, CacheItem>` is an association list in insertion order
  (`mapGet` / `mapSet` / `mapDelete` mirror `Map.get` / `Map.set` / `Map.delete`).
- Every call site of `Date.now()` becomes an explicit `Int` parameter of the
  operation (epoch milliseconds), in source order.
- `context.globalState.update` (the durable write) is not observable in a pure
  model, so each state carries two instrumentation counters: `savesRequested`
  counts invocations of `saveCache` (a "scheduled" write) and `savesPerformed`
  counts the invocations that pass the 1000 ms debounce check and reach the
  actual write.
-/

/-- One cached lookup result, mirroring `interface CacheItem` of
`translation-cache.ts` (fields `result`, `timestamp`, `from`, `to`; `from` and
`to` are rendered `fromLang` / `toLang` because `from` is a Lean keyword). -/
structure CacheItem where
  result : String
  timestamp : Int
  fromLang : String
  toLang : String
deriving Repr, DecidableEq

/-- `Map.get`: first binding of the key in the association list, if any. -/
def mapGet : List (String × CacheItem) → String → Option CacheItem
  | [], _ => none
  | (k, v) :: rest, key => if k = key then some v else mapGet rest key

/-- `Map.set`: replace the binding in place if the key exists, else append. -/
def mapSet : List (String × CacheItem) → String → CacheItem → List (String × CacheItem)
  | [], key, v => [(key, v)]
  | (k, w) :: rest, key, v =>
    if k = key then (key, v) :: rest else (k, w) :: mapSet rest key v

/-- `Map.delete`: remove every binding of the key (unique in well-formed states). -/
def mapDelete (m : List (String × CacheItem)) (key : String) : List (String × CacheItem) :=
  m.filter (fun p => p.1 ≠ key)

/-- `generateKey(text, from, to)`: the template literal `text|from|to`. -/
def generateKey (text fromLang toLang : String) : String :=
  text ++ "|" ++ fromLang ++ "|" ++ toLang

/-- `calculateItemSize(key, item)`: 2 bytes per UTF-16 code unit of the key,
result, source tag and target tag, plus 8 bytes for the timestamp. -/
def calculateItemSize (key : String) (item : CacheItem) : Int :=
  (key.length : Int) * 2 + (item.result.length : Int) * 2
    + (item.fromLang.length : Int) * 2 + (item.toLang.length : Int) * 2 + 8

/-- Sum of `calculateItemSize` over all bindings of a map: what
`currentCacheSize` is documented to track. -/
def cacheSizeSum (m : List (String × CacheItem)) : Int :=
  (m.map (fun p => calculateItemSize p.1 p.2)).sum

/-- The `this.metrics` object literal of the class. -/
structure CacheMetrics where
  hits : Nat
  misses : Nat
  totalResponseTime : Int
  responses : Nat
deriving Repr, DecidableEq

/-- The mutable fields of class `TranslationCache`, plus the two
instrumentation counters for persistence events (see the module docstring). -/
structure TranslationCache where
  cache : List (String × CacheItem)
  expirationTime : Int
  maxCacheSize : Int
  currentCacheSize : Int
  metrics : CacheMetrics
  lastSaveTime : Int
  savesRequested : Nat
  savesPerformed : Nat
deriving Repr, DecidableEq

/-- `saveCache()`: drop the request if less than 1000 ms passed since
`lastSaveTime`, otherwise stamp `lastSaveTime := now` and perform the write. -/
def TranslationCache.saveCache (c : TranslationCache) (now : Int) : TranslationCache :=
  let c := {c with savesRequested := c.savesRequested + 1}
  if now - c.lastSaveTime < 1000 then c
  else {c with lastSaveTime := now, savesPerformed := c.savesPerformed + 1}

/-- `cleanExpiredCache()`: delete every entry older than `expirationTime`
(`currentCacheSize` is NOT adjusted, as in the source) and, if at least one was
deleted, call `saveCache`. -/
def TranslationCache.cleanExpiredCache (c : TranslationCache) (now saveNow : Int) :
    TranslationCache :=
  let expiredCount := (c.cache.filter (fun p => now - p.2.timestamp > c.expirationTime)).length
  let c := {c with cache := c.cache.filter (fun p => ¬ (now - p.2.timestamp > c.expirationTime))}
  if expiredCount > 0 then c.saveCache saveNow else c

/-- The constructor: field initializers (`currentCacheSize = 0`, zero metrics,
`lastSaveTime = Date.now()`), unit conversion of `expirationDays` and
`maxCacheSizeMB`, then `loadCache()` (here: fold the persisted snapshot into
the empty map, accumulating `currentCacheSize`), then `cleanExpiredCache()`. -/
def TranslationCache.construct (loaded : List (String × CacheItem))
    (expirationDays maxCacheSizeMB : Int) (initTime sweepTime saveNow : Int) :
    TranslationCache :=
  let c : TranslationCache :=
    { cache := []
      expirationTime := expirationDays * 24 * 60 * 60 * 1000
      maxCacheSize := maxCacheSizeMB * 1024 * 1024
      currentCacheSize := 0
      metrics := ⟨0, 0, 0, 0⟩
      lastSaveTime := initTime
      savesRequested := 0
      savesPerformed := 0 }
  let c := loaded.foldl (fun c p =>
    { c with cache := mapSet c.cache p.1 p.2
             currentCacheSize := c.currentCacheSize + calculateItemSize p.1 p.2 }) c
  c.cleanExpiredCache sweepTime saveNow

/-- `get(text, from, to)`: miss counts a miss; an expired entry is deleted
(without a size decrement, as in the source) and `saveCache` is called; a live
entry records hit metrics and returns its result. The four time parameters are
the four `Date.now()` call sites (`startTime`, the expiry check, the one inside
`saveCache`, and the response-time measurement). -/
def TranslationCache.get (c : TranslationCache) (text fromLang toLang : String)
    (startTime now saveNow endTime : Int) : Option String × TranslationCache :=
  let key := generateKey text fromLang toLang
  match mapGet c.cache key with
  | none => (none, {c with metrics.misses := c.metrics.misses + 1})
  | some cachedItem =>
    if now - cachedItem.timestamp > c.expirationTime then
      let c := {c with cache := mapDelete c.cache key}
      (none, c.saveCache saveNow)
    else
      let c := {c with metrics.hits := c.metrics.hits + 1}
      let c := {c with metrics.totalResponseTime := c.metrics.totalResponseTime + (endTime - startTime)}
      let c := {c with metrics.responses := c.metrics.responses + 1}
      (some cachedItem.result, c)

/-- The `while` loop of `checkAndCleanCacheSize`: while the accounted size
exceeds the cap and sorted items remain, shift the oldest item, delete it from
the map and subtract its size; returns the map, the size and the number of
deletions. -/
def evictLoop (maxSize : Int) :
    List (String × CacheItem) → List (String × CacheItem) → Int →
      List (String × CacheItem) × Int × Nat
  | cache, [], size => (cache, size, 0)
  | cache, (key, item) :: rest, size =>
    if size > maxSize then
      let r := evictLoop maxSize (mapDelete cache key) rest (size - calculateItemSize key item)
      (r.1, r.2.1, r.2.2 + 1)
    else (cache, size, 0)

/-- `Array.from(cache.entries()).sort((a, b) => a.timestamp - b.timestamp)`:
a stable sort of the entries, ascending by timestamp. -/
def sortByTimestamp (m : List (String × CacheItem)) : List (String × CacheItem) :=
  m.mergeSort (fun p q => decide (p.2.timestamp ≤ q.2.timestamp))

/-- `checkAndCleanCacheSize()`: return early when within the cap; otherwise run
the eviction loop over the timestamp-sorted entries and, if anything was
removed, call `saveCache`. -/
def TranslationCache.checkAndCleanCacheSize (c : TranslationCache) (saveNow : Int) :
    TranslationCache :=
  if c.currentCacheSize ≤ c.maxCacheSize then c
  else
    let items := sortByTimestamp c.cache
    let r := evictLoop c.maxCacheSize c.cache items c.currentCacheSize
    let c := {c with cache := r.1, currentCacheSize := r.2.1}
    if r.2.2 > 0 then c.saveCache saveNow else c

/-- `set(text, result, from, to)`: build the new item with `timestamp = now`;
if the key exists subtract the old item's size; add the new item's size; store
the item; run `checkAndCleanCacheSize`; call `saveCache`. -/
def TranslationCache.set (c : TranslationCache) (text result fromLang toLang : String)
    (now saveNowEvict saveNow : Int) : TranslationCache :=
  let key := generateKey text fromLang toLang
  let cacheItem : CacheItem := ⟨result, now, fromLang, toLang⟩
  let c := match mapGet c.cache key with
    | some oldItem =>
      {c with currentCacheSize := c.currentCacheSize - calculateItemSize key oldItem}
    | none => c
  let newItemSize := calculateItemSize key cacheItem
  let c := {c with currentCacheSize := c.currentCacheSize + newItemSize}
  let c := {c with cache := mapSet c.cache key cacheItem}
  let c := c.checkAndCleanCacheSize saveNowEvict
  c.saveCache saveNow

/-- `clear()`: drop every entry, reset the accounted size, call `saveCache`. -/
def TranslationCache.clear (c : TranslationCache) (saveNow : Int) : TranslationCache :=
  let c := {c with cache := [], currentCacheSize := 0}
  c.saveCache saveNow

/-- `size()`: the number of live entries (`this.cache.size`). -/
def TranslationCache.size (c : TranslationCache) : Nat :=
  c.cache.length

/-- The record returned by `getMetrics()`. -/
structure MetricsSnapshot where
  hitRate : Rat
  avgResponseTime : Rat
  size : Int
deriving Repr, DecidableEq

/-- `getMetrics()`: hit rate as a percentage of all lookups (0 with no
observations), average response time over recorded responses (0 with none),
and the accounted size. -/
def TranslationCache.getMetrics (c : TranslationCache) : MetricsSnapshot :=
  let total := c.metrics.hits + c.metrics.misses
  { hitRate := if total > 0 then ((c.metrics.hits : Rat) / (total : Rat)) * 100 else 0
    avgResponseTime :=
      if c.metrics.responses > 0 then
        (c.metrics.totalResponseTime : Rat) / (c.metrics.responses : Rat)
      else 0
    size := c.currentCacheSize }

/-- A freshly constructed cache with an empty persisted snapshot and default
configuration, used as a concrete base state by several witnesses. -/
def emptyCache : TranslationCache :=
  TranslationCache.construct [] 3 20 0 0 0

/-- A concrete state holding two 24-byte entries under a 60-byte cap, used by
the eviction witness: one further 24-byte `set` overflows the cap and must
evict the oldest entry. -/
def twoEntryState : TranslationCache :=
  { cache := [("a|x|y", ⟨"r", 10, "x", "y"⟩), ("b|x|y", ⟨"r", 20, "x", "y"⟩)],
    expirationTime := 1000, maxCacheSize := 60, currentCacheSize := 48,
    metrics := ⟨0, 0, 0, 0⟩, lastSaveTime := 0, savesRequested := 0, savesPerformed := 0 }

/-- A concrete state with 3 recorded hits, 1 miss and 35 ms of total hit
latency, used by the metrics witness. -/
def threeHitState : TranslationCache :=
  { cache := [], expirationTime := 1000, maxCacheSize := 100, currentCacheSize := 0,
    metrics := ⟨3, 1, 35, 3⟩, lastSaveTime := 0, savesRequested := 0, savesPerformed := 0 }

/-! Claim theorems -/

/-- C1. The spec claims `currentCacheSize` equals the sum of the byte-size
estimates of the live entries after every operation. The construction-time
expiration sweep deletes an entry without decrementing `currentCacheSize`:
loading one already-expired 24-byte entry leaves an empty map whose accounted
size is still 24, not 0. -/
theorem currentCacheSize_sum_invariant_broken_by_sweep :
    let c : TranslationCache := TranslationCache.construct
      [("a|b|c", ⟨"r", 0, "b", "c"⟩)] 3 20 300000000 300000005 300000010
    c.cache = [] ∧ c.currentCacheSize = 24 ∧ cacheSizeSum c.cache = 0 ∧
      c.currentCacheSize ≠ cacheSizeSum c.cache := by
  decide

/-- C2. On `get` of an expired entry the code deletes the entry, schedules
(and here performs) a persistence write, returns absent and leaves the metrics
untouched — but it does NOT decrement the accounted size: the 32-byte entry is
removed while `currentCacheSize` stays 32. -/
theorem expired_get_skips_size_decrement :
    let c : TranslationCache :=
      { cache := [("x|en|fr", ⟨"y", 0, "en", "fr"⟩)], expirationTime := 1000,
        maxCacheSize := 100, currentCacheSize := 32, metrics := ⟨0, 0, 0, 0⟩,
        lastSaveTime := 0, savesRequested := 0, savesPerformed := 0 }
    let r := c.get "x" "en" "fr" 2000 2000 2000 2000
    calculateItemSize "x|en|fr" ⟨"y", 0, "en", "fr"⟩ = 32 ∧
      r.1 = none ∧ r.2.cache = [] ∧ r.2.savesRequested = 1 ∧
      r.2.savesPerformed = 1 ∧ r.2.metrics = c.metrics ∧
      r.2.currentCacheSize = 32 := by
  decide

/-- C3, counterexample. The construction-time sweep removes one entry and
schedules a write, yet no durable write has ever occurred; the claim says that
write is performed. In the code `lastSaveTime` is initialized to the
construction time, so the sweep's request (10 ms later) falls inside the
1000 ms debounce window and is dropped. -/
theorem sweep_write_dropped :
    let c := TranslationCache.construct [("a|b|c", ⟨"r", 0, "b", "c"⟩)] 3 20
      300000000 300000005 300000010
    c.size = 0 ∧ c.savesRequested = 1 ∧ c.savesPerformed = 0 := by
  decide

/-- The `loadCache` fold touches only `cache` and `currentCacheSize`. -/
theorem loadCache_foldl_frame (loaded : List (String × CacheItem)) (c : TranslationCache) :
    (loaded.foldl (fun c p =>
      { c with cache := mapSet c.cache p.1 p.2
               currentCacheSize := c.currentCacheSize + calculateItemSize p.1 p.2 }) c).lastSaveTime
        = c.lastSaveTime ∧
    (loaded.foldl (fun c p =>
      { c with cache := mapSet c.cache p.1 p.2
               currentCacheSize := c.currentCacheSize + calculateItemSize p.1 p.2 }) c).savesPerformed
        = c.savesPerformed := by
  induction loaded generalizing c with
  | nil => exact ⟨rfl, rfl⟩
  | cons p rest ih => exact ih _

/-- C3, amended. A save request always bumps `savesRequested`; it is dropped
(no durable write) exactly when less than 1000 ms have elapsed since
`lastSaveTime` — a stamp that starts at the construction time, not at a past
durable write. Consequently a construction whose sweep-save happens within
1000 ms of construction performs no durable write at all. -/
theorem saveCache_debounce_measures_lastSaveTime (c : TranslationCache) (now : Int) :
    (c.saveCache now).savesRequested = c.savesRequested + 1 ∧
    ((c.saveCache now).savesPerformed = c.savesPerformed ↔ now - c.lastSaveTime < 1000) ∧
    ∀ loaded days mb t0 t1 t2, t2 - t0 < 1000 →
      (TranslationCache.construct loaded days mb t0 t1 t2).savesPerformed = 0 := by
  refine ⟨?_, ?_, ?_⟩
  · unfold TranslationCache.saveCache
    dsimp only
    split <;> rfl
  · unfold TranslationCache.saveCache
    dsimp only
    split <;> simp_all
  · intro loaded days mb t0 t1 t2 ht
    unfold TranslationCache.construct TranslationCache.cleanExpiredCache
    have h := loadCache_foldl_frame loaded
      { cache := [], expirationTime := days * 24 * 60 * 60 * 1000,
        maxCacheSize := mb * 1024 * 1024, currentCacheSize := 0,
        metrics := ⟨0, 0, 0, 0⟩, lastSaveTime := t0,
        savesRequested := 0, savesPerformed := 0 }
    dsimp only
    split
    · unfold TranslationCache.saveCache
      dsimp only
      split
      · simpa using h.2
      · rename_i hge
        exact absurd (by rw [h.1]; exact ht) hge
    · simpa using h.2

/-- Witness for the amended C3 at a concrete state and a concrete loaded
snapshot. -/
theorem saveCache_debounce_measures_lastSaveTime_witness :
    (emptyCache.saveCache 500).savesRequested = emptyCache.savesRequested + 1 ∧
    ((500 : Int) - emptyCache.lastSaveTime < 1000) ∧
    (TranslationCache.construct [("a|b|c", ⟨"r", 0, "b", "c"⟩)] 3 20
      300000000 300000005 300000010).savesPerformed = 0 := by
  refine ⟨(saveCache_debounce_measures_lastSaveTime emptyCache 500).1, by decide, ?_⟩
  exact (saveCache_debounce_measures_lastSaveTime emptyCache 500).2.2
    [("a|b|c", ⟨"r", 0, "b", "c"⟩)] 3 20 300000000 300000005 300000010 (by decide)

/-- C7, counterexample. `generateKey` joins with an unescaped `|`, so the two
distinct triples ("a|b","c","d") and ("a","b|c","d") produce the same key, and
a `set` under the first changes what `get` returns for the second. -/
theorem generateKey_collision :
    generateKey "a|b" "c" "d" = generateKey "a" "b|c" "d" ∧
    ("a|b", "c", "d") ≠ ("a", "b|c", "d") ∧
    ((emptyCache.set "a|b" "v" "c" "d" 5 6 7).get "a" "b|c" "d" 8 8 8 8).1 = some "v" := by
  refine ⟨rfl, by decide, by decide⟩

/-- C9. After `clear()` the map is empty, the accounted size is 0, `size()`
and the metrics-reported size are 0, a persistence write is scheduled, and any
subsequent `get` returns absent. -/
theorem clear_empties_cache (c : TranslationCache) (saveNow : Int) :
    let c' := c.clear saveNow
    c'.cache = [] ∧ c'.currentCacheSize = 0 ∧ c'.size = 0 ∧
      c'.getMetrics.size = 0 ∧ c'.savesRequested = c.savesRequested + 1 ∧
      ∀ text fromLang toLang t0 t1 ts t2,
        (c'.get text fromLang toLang t0 t1 ts t2).1 = none := by
  unfold TranslationCache.clear TranslationCache.saveCache
  dsimp only
  split <;>
    simp [TranslationCache.size, TranslationCache.getMetrics, TranslationCache.get, mapGet]

/-- C10. `clear()` leaves every metrics counter unchanged, so the hit rate and
average response time reported by `getMetrics` are unaffected. -/
theorem clear_preserves_metrics (c : TranslationCache) (saveNow : Int) :
    let c' := c.clear saveNow
    c'.metrics = c.metrics ∧ c'.getMetrics.hitRate = c.getMetrics.hitRate ∧
      c'.getMetrics.avgResponseTime = c.getMetrics.avgResponseTime := by
  unfold TranslationCache.clear TranslationCache.saveCache
  dsimp only
  split <;> simp [TranslationCache.getMetrics]

/-! Association-list lemmas for the embedded `Map` -/

/-- `mapSet` followed by `mapGet` at the same key yields the new item. -/
theorem mapGet_mapSet_self (m : List (String × CacheItem)) (key : String) (v : CacheItem) :
    mapGet (mapSet m key v) key = some v := by
  induction m with
  | nil => simp [mapSet, mapGet]
  | cons p rest ih =>
    obtain ⟨k, w⟩ := p
    by_cases h : k = key
    · simp [mapSet, mapGet, h]
    · simp [mapSet, mapGet, h, ih]

/-- `mapSet` at one key leaves `mapGet` at any other key unchanged. -/
theorem mapGet_mapSet_ne (m : List (String × CacheItem)) (key key2 : String) (v : CacheItem)
    (h : key ≠ key2) : mapGet (mapSet m key v) key2 = mapGet m key2 := by
  induction m with
  | nil => simp [mapSet, mapGet, h]
  | cons p rest ih =>
    obtain ⟨k, w⟩ := p
    by_cases hk : k = key
    · subst hk
      simp [mapSet, mapGet, h]
    · simp [mapSet, mapGet, hk, ih]

/-- `saveCache` changes none of the store, configuration or metrics fields. -/
theorem saveCache_frame (c : TranslationCache) (now : Int) :
    (c.saveCache now).cache = c.cache ∧
    (c.saveCache now).expirationTime = c.expirationTime ∧
    (c.saveCache now).maxCacheSize = c.maxCacheSize ∧
    (c.saveCache now).currentCacheSize = c.currentCacheSize ∧
    (c.saveCache now).metrics = c.metrics := by
  unfold TranslationCache.saveCache
  dsimp only
  split <;> exact ⟨rfl, rfl, rfl, rfl, rfl⟩

/-- `checkAndCleanCacheSize` changes none of the configuration or metrics
fields. -/
theorem checkAndCleanCacheSize_frame (c : TranslationCache) (saveNow : Int) :
    (c.checkAndCleanCacheSize saveNow).expirationTime = c.expirationTime ∧
    (c.checkAndCleanCacheSize saveNow).maxCacheSize = c.maxCacheSize ∧
    (c.checkAndCleanCacheSize saveNow).metrics = c.metrics := by
  unfold TranslationCache.checkAndCleanCacheSize
  dsimp only
  split
  · exact ⟨rfl, rfl, rfl⟩
  · split
    · rename_i c' h
      exact ⟨(saveCache_frame _ _).2.1, (saveCache_frame _ _).2.2.1,
        (saveCache_frame _ _).2.2.2.2⟩
    · exact ⟨rfl, rfl, rfl⟩

/-- `set` preserves the expiration window. -/
theorem set_expirationTime (c : TranslationCache) (text result fromLang toLang : String)
    (now saveNowEvict saveNow : Int) :
    (c.set text result fromLang toLang now saveNowEvict saveNow).expirationTime
      = c.expirationTime := by
  unfold TranslationCache.set
  dsimp only
  rw [(saveCache_frame _ _).2.1]
  cases h : mapGet c.cache (generateKey text fromLang toLang) <;>
    simp [h, (checkAndCleanCacheSize_frame _ _).1]

/-- `saveCache` always counts one more requested save. -/
theorem savesRequested_saveCache (c : TranslationCache) (now : Int) :
    (c.saveCache now).savesRequested = c.savesRequested + 1 := by
  unfold TranslationCache.saveCache
  dsimp only
  split <;> rfl

/-- `checkAndCleanCacheSize` never decreases the request counter (the lower
bound is a parameter so the lemma applies up to definitional unfolding). -/
theorem savesRequested_checkAndCleanCacheSize_ge (c : TranslationCache) (saveNow : Int)
    (n : Nat) (h : n = c.savesRequested) :
    n ≤ (c.checkAndCleanCacheSize saveNow).savesRequested := by
  subst h
  unfold TranslationCache.checkAndCleanCacheSize TranslationCache.saveCache
  dsimp only
  split
  · exact Nat.le_refl _
  · split
    · split <;> simp
    · exact Nat.le_refl _

/-- C5. `set` first subtracts the byte size of a pre-existing item under the
same key, builds the fresh item with `timestamp = now`, stores it over any
prior entry, adds its byte size, then invokes the eviction check and schedules
a persistence write unconditionally; the byte-size estimate is
`2 * (len(key) + len(result) + len(from) + len(to)) + 8`. -/
theorem set_subtracts_old_adds_new_then_evicts_and_saves (c : TranslationCache)
    (text result fromLang toLang : String) (now saveNowEvict saveNow : Int) :
    let key := generateKey text fromLang toLang
    let item : CacheItem := ⟨result, now, fromLang, toLang⟩
    c.set text result fromLang toLang now saveNowEvict saveNow
      = (TranslationCache.checkAndCleanCacheSize
          { c with cache := mapSet c.cache key item
                   currentCacheSize := c.currentCacheSize
                     - (match mapGet c.cache key with
                        | some oldItem => calculateItemSize key oldItem
                        | none => 0)
                     + calculateItemSize key item } saveNowEvict).saveCache saveNow ∧
    calculateItemSize key item
      = 2 * ((key.length : Int) + result.length + fromLang.length + toLang.length) + 8 ∧
    mapGet (mapSet c.cache key item) key = some item ∧
    c.savesRequested + 1
      ≤ (c.set text result fromLang toLang now saveNowEvict saveNow).savesRequested := by
  refine ⟨?_, ?_, mapGet_mapSet_self _ _ _, ?_⟩
  · unfold TranslationCache.set
    dsimp only
    cases h : mapGet c.cache (generateKey text fromLang toLang) <;> simp [h]
  · simp [calculateItemSize]
    ring
  · unfold TranslationCache.set
    dsimp only
    rw [savesRequested_saveCache]
    cases h : mapGet c.cache (generateKey text fromLang toLang) <;>
    · refine Nat.add_le_add_right ?_ 1
      exact savesRequested_checkAndCleanCacheSize_ge _ saveNowEvict _ rfl

/-- C6. Round-trip: `set(text, value, from, to)` immediately followed by
`get(text, from, to)` (same clock value `now` at the expiry check) returns
`value`, provided the expiration window is non-negative and the eviction
triggered by the `set` did not remove the entry. -/
theorem set_get_roundtrip (c : TranslationCache) (text result fromLang toLang : String)
    (now saveNowEvict saveNow startTime saveNow2 endTime : Int)
    (hexp : 0 ≤ c.expirationTime)
    (hpresent : mapGet (c.set text result fromLang toLang now saveNowEvict saveNow).cache
        (generateKey text fromLang toLang) = some ⟨result, now, fromLang, toLang⟩) :
    ((c.set text result fromLang toLang now saveNowEvict saveNow).get text fromLang toLang
        startTime now saveNow2 endTime).1 = some result := by
  have hexp2 : 0 ≤ (c.set text result fromLang toLang now saveNowEvict saveNow).expirationTime := by
    rw [set_expirationTime]
    exact hexp
  have hcond : ¬ (now - now
      > (c.set text result fromLang toLang now saveNowEvict saveNow).expirationTime) := by
    omega
  unfold TranslationCache.get
  dsimp only
  rw [hpresent]
  dsimp only
  rw [if_neg hcond]

/-- Witness for the round-trip at a concrete store, discharging both
hypotheses by evaluation. -/
theorem set_get_roundtrip_witness :
    (0 ≤ emptyCache.expirationTime ∧
      mapGet (emptyCache.set "hi" "bonjour" "en" "fr" 5 6 7).cache
        (generateKey "hi" "en" "fr") = some ⟨"bonjour", 5, "en", "fr"⟩) ∧
    ((emptyCache.set "hi" "bonjour" "en" "fr" 5 6 7).get "hi" "en" "fr" 5 5 8 9).1
      = some "bonjour" := by
  refine ⟨⟨by decide, by decide⟩, ?_⟩
  exact set_get_roundtrip emptyCache "hi" "bonjour" "en" "fr" 5 6 7 5 8 9
    (by decide) (by decide)

/-- C8. The metrics contract: a miss increments only the miss counter and
contributes no latency; a hit increments the hit and response counters and adds
the measured latency; `getMetrics` reports
`hitRate = hits / (hits + misses) * 100` (0 with no observations) and
`avgResponseTime = totalResponseTime / responses` (0 with no recorded hits);
with 3 hits and 1 miss the hit rate is exactly 75 and the average reflects only
the 3 hit latencies. -/
theorem getMetrics_contract :
    (∀ (c : TranslationCache) (text fromLang toLang : String) (t0 t1 ts t2 : Int),
      mapGet c.cache (generateKey text fromLang toLang) = none →
        (c.get text fromLang toLang t0 t1 ts t2).1 = none ∧
        (c.get text fromLang toLang t0 t1 ts t2).2.metrics.misses = c.metrics.misses + 1 ∧
        (c.get text fromLang toLang t0 t1 ts t2).2.metrics.hits = c.metrics.hits ∧
        (c.get text fromLang toLang t0 t1 ts t2).2.metrics.totalResponseTime
          = c.metrics.totalResponseTime ∧
        (c.get text fromLang toLang t0 t1 ts t2).2.metrics.responses = c.metrics.responses) ∧
    (∀ (c : TranslationCache) (text fromLang toLang : String) (t0 t1 ts t2 : Int)
        (item : CacheItem),
      mapGet c.cache (generateKey text fromLang toLang) = some item →
      ¬ (t1 - item.timestamp > c.expirationTime) →
        (c.get text fromLang toLang t0 t1 ts t2).1 = some item.result ∧
        (c.get text fromLang toLang t0 t1 ts t2).2.metrics.hits = c.metrics.hits + 1 ∧
        (c.get text fromLang toLang t0 t1 ts t2).2.metrics.misses = c.metrics.misses ∧
        (c.get text fromLang toLang t0 t1 ts t2).2.metrics.totalResponseTime
          = c.metrics.totalResponseTime + (t2 - t0) ∧
        (c.get text fromLang toLang t0 t1 ts t2).2.metrics.responses
          = c.metrics.responses + 1) ∧
    (∀ c : TranslationCache, c.metrics.hits + c.metrics.misses = 0 →
      c.getMetrics.hitRate = 0) ∧
    (∀ c : TranslationCache, c.metrics.responses = 0 → c.getMetrics.avgResponseTime = 0) ∧
    (∀ c : TranslationCache, 0 < c.metrics.hits + c.metrics.misses →
      c.getMetrics.hitRate
        = ((c.metrics.hits : Rat) / ((c.metrics.hits + c.metrics.misses : Nat) : Rat)) * 100) ∧
    (∀ c : TranslationCache, 0 < c.metrics.responses →
      c.getMetrics.avgResponseTime
        = (c.metrics.totalResponseTime : Rat) / (c.metrics.responses : Rat)) ∧
    (∀ c : TranslationCache, c.metrics.hits = 3 → c.metrics.misses = 1 →
      c.metrics.responses = 3 →
        c.getMetrics.hitRate = 75 ∧
        c.getMetrics.avgResponseTime = (c.metrics.totalResponseTime : Rat) / 3) := by
  refine ⟨?_, ?_, ?_, ?_, ?_, ?_, ?_⟩
  · intro c text fromLang toLang t0 t1 ts t2 h
    unfold TranslationCache.get
    dsimp only
    rw [h]
    exact ⟨rfl, rfl, rfl, rfl, rfl⟩
  · intro c text fromLang toLang t0 t1 ts t2 item h hlive
    unfold TranslationCache.get
    dsimp only
    rw [h]
    dsimp only
    rw [if_neg hlive]
    exact ⟨rfl, rfl, rfl, rfl, rfl⟩
  · intro c h
    unfold TranslationCache.getMetrics
    dsimp only
    rw [if_neg (by omega)]
  · intro c h
    unfold TranslationCache.getMetrics
    dsimp only
    rw [if_neg (by omega)]
  · intro c h
    unfold TranslationCache.getMetrics
    dsimp only
    rw [if_pos (by omega)]
  · intro c h
    unfold TranslationCache.getMetrics
    dsimp only
    rw [if_pos (by omega)]
  · intro c h3 h1 hr
    unfold TranslationCache.getMetrics
    dsimp only
    rw [h3, h1, hr]
    norm_num

/-- Witness for the metrics contract: a concrete miss, a concrete hit, and a
concrete state with 3 hits, 1 miss and 35 ms of total hit latency. -/
theorem getMetrics_contract_witness :
    (mapGet emptyCache.cache (generateKey "a" "b" "c") = none ∧
      (emptyCache.get "a" "b" "c" 0 0 0 0).2.metrics.misses = emptyCache.metrics.misses + 1) ∧
    (mapGet (emptyCache.set "hi" "bonjour" "en" "fr" 5 6 7).cache (generateKey "hi" "en" "fr")
        = some ⟨"bonjour", 5, "en", "fr"⟩ ∧
      ¬ ((5 : Int) - 5 > (emptyCache.set "hi" "bonjour" "en" "fr" 5 6 7).expirationTime) ∧
      ((emptyCache.set "hi" "bonjour" "en" "fr" 5 6 7).get "hi" "en" "fr" 5 5 8 9).2.metrics.hits
        = (emptyCache.set "hi" "bonjour" "en" "fr" 5 6 7).metrics.hits + 1) ∧
    (threeHitState.metrics.hits = 3 ∧ threeHitState.metrics.misses = 1 ∧
      threeHitState.metrics.responses = 3 ∧
      threeHitState.getMetrics.hitRate = 75 ∧
      threeHitState.getMetrics.avgResponseTime = (35 : Rat) / 3) := by
  refine ⟨⟨by decide, ?_⟩, ⟨by decide, by decide, ?_⟩, rfl, rfl, rfl, ?_, ?_⟩
  · exact ((getMetrics_contract.1 emptyCache "a" "b" "c" 0 0 0 0) (by decide)).2.1
  · exact ((getMetrics_contract.2.1 (emptyCache.set "hi" "bonjour" "en" "fr" 5 6 7)
      "hi" "en" "fr" 5 5 8 9 ⟨"bonjour", 5, "en", "fr"⟩) (by decide) (by decide)).2.1
  · exact (getMetrics_contract.2.2.2.2.2.2 threeHitState rfl rfl rfl).1
  · exact (getMetrics_contract.2.2.2.2.2.2 threeHitState rfl rfl rfl).2

/-! Lemmas about deletion, insertion and the eviction loop -/

/-- Membership in `mapDelete`: still in the original map and not at the
deleted key. -/
theorem mem_mapDelete (m : List (String × CacheItem)) (key : String)
    (p : String × CacheItem) : p ∈ mapDelete m key ↔ p ∈ m ∧ p.1 ≠ key := by
  simp [mapDelete, List.mem_filter]

/-- Every key of `mapSet m key v` is `key` or a key of `m`. -/
theorem mem_keys_mapSet (m : List (String × CacheItem)) (key : String) (v : CacheItem)
    (x : String) (hx : x ∈ (mapSet m key v).map Prod.fst) :
    x = key ∨ x ∈ m.map Prod.fst := by
  induction m with
  | nil => simpa [mapSet] using hx
  | cons p rest ih =>
    obtain ⟨k, w⟩ := p
    by_cases h : k = key
    · subst h
      simpa [mapSet] using hx
    · rw [mapSet, if_neg h, List.map_cons, List.mem_cons] at hx
      rcases hx with h1 | h2
      · exact Or.inr (by simp [h1])
      · rcases ih h2 with h3 | h4
        · exact Or.inl h3
        · exact Or.inr (by simp [h4])

/-- `mapSet` preserves distinctness of keys. -/
theorem mapSet_keys_nodup (m : List (String × CacheItem)) (key : String) (v : CacheItem)
    (h : (m.map Prod.fst).Nodup) : ((mapSet m key v).map Prod.fst).Nodup := by
  induction m with
  | nil => simp [mapSet]
  | cons p rest ih =>
    obtain ⟨k, w⟩ := p
    rw [List.map_cons, List.nodup_cons] at h
    by_cases hk : k = key
    · subst hk
      simpa [mapSet] using h
    · rw [mapSet, if_neg hk, List.map_cons, List.nodup_cons]
      refine ⟨?_, ih h.2⟩
      intro hmem
      rcases mem_keys_mapSet rest key v k hmem with h1 | h2
      · exact hk h1
      · exact h.1 h2

/-- The eviction loop only deletes: its resulting map is a sublist of the
input map, membership-wise. -/
theorem evictLoop_subset (maxSize : Int) (items : List (String × CacheItem)) :
    ∀ (cache : List (String × CacheItem)) (size : Int) (p : String × CacheItem),
      p ∈ (evictLoop maxSize cache items size).1 → p ∈ cache := by
  induction items with
  | nil => intro cache size p hp; simpa [evictLoop] using hp
  | cons q rest ih =>
    obtain ⟨k, it⟩ := q
    intro cache size p hp
    rw [evictLoop] at hp
    by_cases hs : size > maxSize
    · rw [if_pos hs] at hp
      have := ih (mapDelete cache k) (size - calculateItemSize k it) p hp
      exact ((mem_mapDelete cache k p).mp this).1
    · rw [if_neg hs] at hp
      exact hp

/-- When every entry of the map occurs among the items, the eviction loop
ends with the accounted size within the cap or with an empty map. -/
theorem evictLoop_le_or_nil (maxSize : Int) (items : List (String × CacheItem)) :
    ∀ (cache : List (String × CacheItem)) (size : Int),
      (∀ p ∈ cache, p ∈ items) →
      (evictLoop maxSize cache items size).2.1 ≤ maxSize ∨
        (evictLoop maxSize cache items size).1 = [] := by
  induction items with
  | nil =>
    intro cache size hsub
    right
    rw [evictLoop]
    cases cache with
    | nil => rfl
    | cons p rest => exact absurd (hsub p (List.mem_cons_self p rest)) (List.not_mem_nil p)
  | cons q rest ih =>
    obtain ⟨k, it⟩ := q
    intro cache size hsub
    rw [evictLoop]
    by_cases hs : size > maxSize
    · rw [if_pos hs]
      refine ih (mapDelete cache k) (size - calculateItemSize k it) ?_
      intro p hp
      rw [mem_mapDelete] at hp
      rcases List.mem_cons.mp (hsub p hp.1) with h1 | h2
      · exact absurd (congrArg Prod.fst h1) hp.2
      · exact h2
    · rw [if_neg hs]
      left
      exact le_of_not_lt hs

/-- Eviction-order contract of the loop: when the items list is sorted by
timestamp, covers the map, and has distinct keys, every entry deleted by the
loop has a timestamp less than or equal to that of every surviving entry. -/
theorem evictLoop_order (maxSize : Int) (items : List (String × CacheItem)) :
    ∀ (cache : List (String × CacheItem)) (size : Int),
      (∀ p ∈ cache, p ∈ items) →
      List.Pairwise (fun p q : String × CacheItem => p.2.timestamp ≤ q.2.timestamp) items →
      (items.map Prod.fst).Nodup →
      ∀ q ∈ cache, q ∉ (evictLoop maxSize cache items size).1 →
        ∀ p ∈ (evictLoop maxSize cache items size).1, q.2.timestamp ≤ p.2.timestamp := by
  induction items with
  | nil =>
    intro cache size hsub hpair hnd q hq hqout p hp
    exact absurd (hsub q hq) (List.not_mem_nil q)
  | cons hd rest ih =>
    obtain ⟨k, it⟩ := hd
    intro cache size hsub hpair hnd q hq hqout p hp
    rw [evictLoop] at hqout hp
    by_cases hs : size > maxSize
    · rw [if_pos hs] at hqout hp
      rw [List.pairwise_cons] at hpair
      rw [List.map_cons, List.nodup_cons] at hnd
      have hsub' : ∀ r ∈ mapDelete cache k, r ∈ rest := by
        intro r hr
        rw [mem_mapDelete] at hr
        rcases List.mem_cons.mp (hsub r hr.1) with h1 | h2
        · exact absurd (congrArg Prod.fst h1) hr.2
        · exact h2
      by_cases hqk : q.1 = k
      · have hqmem : q = (k, it) := by
          rcases List.mem_cons.mp (hsub q hq) with h1 | h2
          · exact h1
          · have hk2 : q.1 ∈ rest.map Prod.fst := List.mem_map_of_mem Prod.fst h2
            rw [hqk] at hk2
            exact absurd hk2 hnd.1
        have hpmem : p ∈ rest :=
          hsub' p (evictLoop_subset maxSize rest (mapDelete cache k)
            (size - calculateItemSize k it) p hp)
        have := hpair.1 p hpmem
        rw [hqmem]
        exact this
      · have hqdel : q ∈ mapDelete cache k := (mem_mapDelete cache k q).mpr ⟨hq, hqk⟩
        exact ih (mapDelete cache k) (size - calculateItemSize k it) hsub'
          hpair.2 hnd.2 q hqdel hqout p hp
    · rw [if_neg hs] at hqout hp
      exact absurd hq hqout

/-- The sorted entry list is pairwise ordered by timestamp. -/
theorem sortByTimestamp_pairwise (m : List (String × CacheItem)) :
    List.Pairwise (fun p q : String × CacheItem => p.2.timestamp ≤ q.2.timestamp)
      (sortByTimestamp m) := by
  have htrans : ∀ a b c : String × CacheItem,
      (fun p q : String × CacheItem => decide (p.2.timestamp ≤ q.2.timestamp)) a b = true →
      (fun p q : String × CacheItem => decide (p.2.timestamp ≤ q.2.timestamp)) b c = true →
      (fun p q : String × CacheItem => decide (p.2.timestamp ≤ q.2.timestamp)) a c = true := by
    intro a b c h1 h2
    simp only [decide_eq_true_eq] at h1 h2 ⊢
    omega
  have htotal : ∀ a b : String × CacheItem,
      ((fun p q : String × CacheItem => decide (p.2.timestamp ≤ q.2.timestamp)) a b ||
        (fun p q : String × CacheItem => decide (p.2.timestamp ≤ q.2.timestamp)) b a) = true := by
    intro a b
    simp only [Bool.or_eq_true, decide_eq_true_eq]
    omega
  have h := List.sorted_mergeSort htrans htotal m
  unfold sortByTimestamp
  exact h.imp (fun hab => by simpa using hab)

/-- Sorting permutes the entries. -/
theorem sortByTimestamp_perm (m : List (String × CacheItem)) :
    (sortByTimestamp m).Perm m :=
  List.mergeSort_perm m _

/-- Postcondition of `checkAndCleanCacheSize` on a store with distinct keys:
the accounted size ends within the cap or the map ends empty, and every entry
it deletes has a timestamp at most that of every surviving entry. -/
theorem checkAndCleanCacheSize_post (c : TranslationCache) (saveNow : Int)
    (hnodup : (c.cache.map Prod.fst).Nodup) :
    ((c.checkAndCleanCacheSize saveNow).currentCacheSize ≤ c.maxCacheSize ∨
      (c.checkAndCleanCacheSize saveNow).cache = []) ∧
    ∀ q ∈ c.cache, q ∉ (c.checkAndCleanCacheSize saveNow).cache →
      ∀ p ∈ (c.checkAndCleanCacheSize saveNow).cache, q.2.timestamp ≤ p.2.timestamp := by
  unfold TranslationCache.checkAndCleanCacheSize
  dsimp only
  split
  · rename_i hle
    exact ⟨Or.inl hle, fun q hq hqout => absurd hq hqout⟩
  · have hsub : ∀ p ∈ c.cache, p ∈ sortByTimestamp c.cache := fun p hp =>
      (sortByTimestamp_perm c.cache).mem_iff.mpr hp
    have hpair := sortByTimestamp_pairwise c.cache
    have hnd : ((sortByTimestamp c.cache).map Prod.fst).Nodup :=
      ((sortByTimestamp_perm c.cache).map Prod.fst).nodup_iff.mpr hnodup
    have hle := evictLoop_le_or_nil c.maxCacheSize (sortByTimestamp c.cache) c.cache
      c.currentCacheSize hsub
    have hord := evictLoop_order c.maxCacheSize (sortByTimestamp c.cache) c.cache
      c.currentCacheSize hsub hpair hnd
    split
    · constructor
      · rcases hle with h | h
        · exact Or.inl (by rw [(saveCache_frame _ _).2.2.2.1]; exact h)
        · exact Or.inr (by rw [(saveCache_frame _ _).1]; exact h)
      · intro q hq hqout p hp
        rw [(saveCache_frame _ _).1] at hqout hp
        exact hord q hq hqout p hp
    · exact ⟨hle, hord⟩

/-- `set` factored into its three stages: store update (old size subtracted,
new item inserted, new size added), eviction check, save request. -/
theorem set_decomposition (c : TranslationCache) (text result fromLang toLang : String)
    (now saveNowEvict saveNow : Int) :
    c.set text result fromLang toLang now saveNowEvict saveNow
      = (TranslationCache.checkAndCleanCacheSize
          { c with cache := mapSet c.cache (generateKey text fromLang toLang)
                     ⟨result, now, fromLang, toLang⟩
                   currentCacheSize := c.currentCacheSize
                     - (match mapGet c.cache (generateKey text fromLang toLang) with
                        | some oldItem =>
                          calculateItemSize (generateKey text fromLang toLang) oldItem
                        | none => 0)
                     + calculateItemSize (generateKey text fromLang toLang)
                         ⟨result, now, fromLang, toLang⟩ } saveNowEvict).saveCache saveNow := by
  unfold TranslationCache.set
  dsimp only
  cases h : mapGet c.cache (generateKey text fromLang toLang) <;> simp [h]

/-- C4. After every `set`, either the accounted size is within `maxCacheSize`
or the store is empty, and — relative to the store as it stood when eviction
began — an entry is never evicted while an entry with a strictly smaller
`createdAt` survives: every evicted entry's timestamp is at most every
survivor's. -/
theorem set_evicts_oldest_first (c : TranslationCache) (text result fromLang toLang : String)
    (now saveNowEvict saveNow : Int) (hnodup : (c.cache.map Prod.fst).Nodup) :
    ((c.set text result fromLang toLang now saveNowEvict saveNow).currentCacheSize
        ≤ c.maxCacheSize ∨
      (c.set text result fromLang toLang now saveNowEvict saveNow).cache = []) ∧
    ∀ q ∈ mapSet c.cache (generateKey text fromLang toLang) ⟨result, now, fromLang, toLang⟩,
      q ∉ (c.set text result fromLang toLang now saveNowEvict saveNow).cache →
        ∀ p ∈ (c.set text result fromLang toLang now saveNowEvict saveNow).cache,
          q.2.timestamp ≤ p.2.timestamp := by
  rw [set_decomposition]
  rw [(saveCache_frame _ _).2.2.2.1, (saveCache_frame _ _).1]
  exact checkAndCleanCacheSize_post _ saveNowEvict (mapSet_keys_nodup _ _ _ hnodup)

/-- Witness for the eviction contract: two 24-byte entries under a 60-byte
cap; a third `set` overflows the cap, and the conclusion holds at this
concrete input. -/
theorem set_evicts_oldest_first_witness :
    (twoEntryState.cache.map Prod.fst).Nodup ∧
    (((twoEntryState.set "c" "r" "x" "y" 30 31 32).currentCacheSize
        ≤ twoEntryState.maxCacheSize ∨
      (twoEntryState.set "c" "r" "x" "y" 30 31 32).cache = []) ∧
    ∀ q ∈ mapSet twoEntryState.cache (generateKey "c" "x" "y") ⟨"r", 30, "x", "y"⟩,
      q ∉ (twoEntryState.set "c" "r" "x" "y" 30 31 32).cache →
        ∀ p ∈ (twoEntryState.set "c" "r" "x" "y" 30 31 32).cache,
          q.2.timestamp ≤ p.2.timestamp) :=
  ⟨by decide, set_evicts_oldest_first twoEntryState "c" "r" "x" "y" 30 31 32 (by decide)⟩

/-- Cancellation of the reserved separator: if two lists free of `|` are each
followed by `|` and a tail, equality of the concatenations forces equality of
the heads and of the tails. -/
theorem pipe_append_cancel (l1 : List Char) :
    ∀ (l2 r1 r2 : List Char), (∀ ch ∈ l1, ch ≠ '|') → (∀ ch ∈ l2, ch ≠ '|') →
      l1 ++ '|' :: r1 = l2 ++ '|' :: r2 → l1 = l2 ∧ r1 = r2 := by
  induction l1 with
  | nil =>
    intro l2 r1 r2 h1 h2 h
    cases l2 with
    | nil =>
      simp only [List.nil_append] at h
      injection h with hc ht
      exact ⟨rfl, ht⟩
    | cons c cs =>
      simp only [List.nil_append, List.cons_append] at h
      injection h with hc ht
      exact absurd hc.symm (h2 c (List.mem_cons_self c cs))
  | cons a as ih =>
    intro l2 r1 r2 h1 h2 h
    cases l2 with
    | nil =>
      simp only [List.nil_append, List.cons_append] at h
      injection h with hc ht
      exact absurd hc (h1 a (List.mem_cons_self a as))
    | cons c cs =>
      simp only [List.cons_append] at h
      injection h with hc ht
      obtain ⟨he, hr⟩ := ih cs r1 r2 (fun ch hm => h1 ch (List.mem_cons_of_mem a hm))
        (fun ch hm => h2 ch (List.mem_cons_of_mem c hm)) ht
      subst hc
      exact ⟨by rw [he], hr⟩

/-- C7, amended. When the original text and the source tag contain no `|`,
distinct triples derive distinct cache keys, and storing under one key leaves
the map's binding at the other key untouched (`get` can still change from hit
to miss only through the eviction or expiration a `set`/`get` may trigger,
which remove entries wholesale rather than rebind them). -/
theorem generateKey_injective_pipe_free (t1 f1 o1 t2 f2 o2 : String)
    (h1 : ∀ ch ∈ t1.data, ch ≠ '|') (h2 : ∀ ch ∈ f1.data, ch ≠ '|')
    (h3 : ∀ ch ∈ t2.data, ch ≠ '|') (h4 : ∀ ch ∈ f2.data, ch ≠ '|')
    (hne : (t1, f1, o1) ≠ (t2, f2, o2)) :
    generateKey t1 f1 o1 ≠ generateKey t2 f2 o2 ∧
    ∀ (m : List (String × CacheItem)) (v : CacheItem),
      mapGet (mapSet m (generateKey t1 f1 o1) v) (generateKey t2 f2 o2)
        = mapGet m (generateKey t2 f2 o2) := by
  have hkey : generateKey t1 f1 o1 ≠ generateKey t2 f2 o2 := by
    intro he
    have hd : (generateKey t1 f1 o1).data = (generateKey t2 f2 o2).data := by rw [he]
    have hpipe : ("|" : String).data = ['|'] := rfl
    unfold generateKey at hd
    simp only [String.data_append, hpipe, List.append_assoc, List.singleton_append] at hd
    obtain ⟨ht, hrest⟩ := pipe_append_cancel t1.data t2.data _ _ h1 h3 hd
    obtain ⟨hf, ho⟩ := pipe_append_cancel f1.data f2.data _ _ h2 h4 hrest
    exact hne (by rw [String.ext ht, String.ext hf, String.ext ho])
  exact ⟨hkey, fun m v => mapGet_mapSet_ne m _ _ v hkey⟩

/-- Witness for the amended key-independence claim at the spec's own example
pair of triples. -/
theorem generateKey_injective_pipe_free_witness :
    ((∀ ch ∈ ("hi" : String).data, ch ≠ '|') ∧ (∀ ch ∈ ("en" : String).data, ch ≠ '|') ∧
      (("hi", "en", "fr") : String × String × String) ≠ ("hi", "en", "de")) ∧
    generateKey "hi" "en" "fr" ≠ generateKey "hi" "en" "de" ∧
    ∀ (m : List (String × CacheItem)) (v : CacheItem),
      mapGet (mapSet m (generateKey "hi" "en" "fr") v) (generateKey "hi" "en" "de")
        = mapGet m (generateKey "hi" "en" "de") :=
  ⟨⟨by decide, by decide, by decide⟩,
    generateKey_injective_pipe_free "hi" "en" "fr" "hi" "en" "de"
      (by decide) (by decide) (by decide) (by decide) (by decide)⟩
